import Mathlib

-- Verification development for the mortar-etl-redshift pipeline script
-- (luigiscripts/wikipedia-luigi.py) and the generic dependency-driven
-- pipeline executor its specification describes: completion markers, a
-- depth-first graph resolver with cycle detection, and a sequential
-- executor, together with the concrete wikipedia ETL task chain.

namespace Pipeline

/-- Modelled from the spec: the Completion Store's task-completion check,
which is part of the external workflow engine, not of the repository's
source.  A store is a predicate telling whether a marker exists; a task is
complete iff all of its markers exist in the store. -/
def complete {ι μ : Type} (markers : ι → List μ) (store : μ → Bool) (t : ι) : Bool :=
  (markers t).all store

/-- Modelled from the spec: the errors the Graph Resolver can signal.
`cyclicDependency` is the spec's `CyclicDependencyError`; `outOfFuel` is the
recursion budget of the embedding running out. -/
inductive ResolveError (ι : Type) where
  | cyclicDependency (t : ι)
  | outOfFuel
deriving DecidableEq

/-- Modelled from the spec: a transient Completion Store backend failure
(`CompletionCheckError`), distinct from a normal "marker absent" result. -/
inductive CompletionCheckError where
  | transient (message : String)
deriving DecidableEq

instance exceptDecEq {ε α : Type} [DecidableEq ε] [DecidableEq α] : DecidableEq (Except ε α)
  | .error e, .error f => decidable_of_iff (e = f) (by simp)
  | .error _, .ok _ => .isFalse (fun h => Except.noConfusion h)
  | .ok _, .error _ => .isFalse (fun h => Except.noConfusion h)
  | .ok a, .ok b => decidable_of_iff (a = b) (by simp)

/-- Modelled from the spec: folding the Completion Store's fallible
existence check over a task's markers.  A backend error on any marker
propagates; an absent marker only contributes a normal `false`. -/
def completeEAux {μ : Type} (check : μ → Except CompletionCheckError Bool) :
    List μ → Bool → Except CompletionCheckError Bool
  | [], b => .ok b
  | m :: l, b =>
    match check m with
    | .ok e => completeEAux check l (b && e)
    | .error err => .error err

/-- Modelled from the spec: the effectful completion check used when the
Completion Store's existence test may fail transiently.  Every marker is
checked; a backend error on any marker propagates, while an absent marker
only contributes a normal `false`. -/
def completeE {ι μ : Type} (markers : ι → List μ)
    (check : μ → Except CompletionCheckError Bool) (t : ι) :
    Except CompletionCheckError Bool :=
  completeEAux check (markers t) true

/-- Modelled from the spec: one step of the Graph Resolver's walk over a
dependency list, sequencing the depth-first visits of the dependencies and
propagating the first error.  `f` is the visit of a single task. -/
def dfsList {ι : Type} (f : List ι → List ι → ι → Except (ResolveError ι) (List ι))
    (vis : List ι) : List ι → List ι → Except (ResolveError ι) (List ι)
  | acc, [] => .ok acc
  | acc, d :: ds =>
    match f vis acc d with
    | .ok acc' => dfsList f vis acc' ds
    | .error e => .error e

/-- Modelled from the spec: the Graph Resolver's depth-first walk.  A task
whose markers all exist is skipped without descending into its
dependencies; a task already in the visiting set is a fatal
`CyclicDependencyError`; a task already scheduled is skipped (dedup by
identity equality); otherwise the dependencies are visited first and the
task is scheduled after them.  `fuel` bounds the recursion depth of the
embedding. -/
def dfs {ι : Type} [DecidableEq ι] (deps : ι → List ι) (cmpl : ι → Bool) :
    Nat → List ι → List ι → ι → Except (ResolveError ι) (List ι)
  | 0, vis, acc, t =>
    if cmpl t then .ok acc
    else if t ∈ vis then .error (ResolveError.cyclicDependency t)
    else if t ∈ acc then .ok acc
    else .error ResolveError.outOfFuel
  | fuel + 1, vis, acc, t =>
    if cmpl t then .ok acc
    else if t ∈ vis then .error (ResolveError.cyclicDependency t)
    else if t ∈ acc then .ok acc
    else
      match dfsList (dfs deps cmpl fuel) (t :: vis) acc (deps t) with
      | .ok acc' => .ok (acc' ++ [t])
      | .error e => .error e

/-- Modelled from the spec: resolution of a goal task, producing the ordered
sequence of tasks to run (dependencies strictly before dependents). -/
def resolve {ι : Type} [DecidableEq ι] (deps : ι → List ι) (cmpl : ι → Bool)
    (fuel : Nat) (goal : ι) : Except (ResolveError ι) (List ι) :=
  dfs deps cmpl fuel [] [] goal

/-- Modelled from the spec: the Executor.  It runs the resolved sequence in
order; a successful task writes all of its markers into the Completion
Store; a failing task halts the pipeline, and its identity is surfaced.
The result is the list of tasks whose `run()` was invoked, the Completion
Store after execution, and the failing task, if any. -/
def execute {ι μ : Type} [DecidableEq μ] (run : ι → Bool) (markers : ι → List μ) :
    List ι → (μ → Bool) → List ι × (μ → Bool) × Option ι
  | [], store => ([], store, none)
  | t :: ts, store =>
    if run t then
      let res := execute run markers ts (fun m => store m || decide (m ∈ markers t))
      (t :: res.1, res.2)
    else ([t], store, some t)

/-- Modelled from the spec: the errors a whole pipeline run can surface. -/
inductive PipelineError (ι : Type) where
  | resolveFailed (e : ResolveError ι)
  | taskFailed (t : ι)
deriving DecidableEq

/-- Modelled from the spec: a full pipeline run.  The Resolver walks the
graph from the goal; only on successful resolution does the Executor invoke
any task's `run()`.  The result is the list of invoked tasks, the final
Completion Store, and the error, if any. -/
def runPipeline {ι μ : Type} [DecidableEq ι] [DecidableEq μ]
    (deps : ι → List ι) (markers : ι → List μ) (run : ι → Bool)
    (fuel : Nat) (store : μ → Bool) (goal : ι) :
    List ι × (μ → Bool) × Option (PipelineError ι) :=
  match resolve deps (complete markers store) fuel goal with
  | .error e => ([], store, some (PipelineError.resolveFailed e))
  | .ok seq =>
    match execute run markers seq store with
    | (inv, store', none) => (inv, store', none)
    | (inv, store', some f) => (inv, store', some (PipelineError.taskFailed f))

/-- Reachability from a task through edges whose targets are incomplete:
`Reaches deps cmpl a b` means `b` is reachable from `a` by following
dependency edges that end in not-yet-complete tasks. -/
inductive Reaches {ι : Type} (deps : ι → List ι) (cmpl : ι → Bool) : ι → ι → Prop where
  | refl (t : ι) : Reaches deps cmpl t t
  | step {a b c : ι} : Reaches deps cmpl a b → c ∈ deps b → cmpl c = false →
      Reaches deps cmpl a c

/-- The invariant the resolver maintains on its accumulated schedule:
no duplicates, only incomplete tasks, closure under incomplete
dependencies, no later element is a dependency of an earlier one, and no
element depends on itself. -/
structure ResolverInv {ι : Type} (deps : ι → List ι) (cmpl : ι → Bool)
    (acc : List ι) : Prop where
  nodup : acc.Nodup
  incomplete : ∀ x ∈ acc, cmpl x = false
  closed : ∀ x ∈ acc, ∀ d ∈ deps x, cmpl d = false → d ∈ acc
  ordered : acc.Pairwise (fun x y => y ∉ deps x)
  irrefl : ∀ x ∈ acc, x ∉ deps x

end Pipeline

-- The concrete task chain of luigiscripts/wikipedia-luigi.py.

/-- Helper function for constructing paths (from the source). -/
def create_full_path (base_path sub_path : String) : String :=
  base_path ++ "/" ++ sub_path

/-- The four task classes of the wikipedia pipeline, identified by their
luigi parameters.  `ExtractWikipediaDataTask` and
`TransformWikipediaDataTask` take `input_base_path`, `output_base_path`
and `cluster_size` (an `IntParameter` with default 5);
`CopyToRedshiftTask` and `ShutdownClusters` take `input_base_path`,
`output_base_path` and `table_name`. -/
inductive WikiTask where
  | ExtractWikipediaDataTask (input_base_path output_base_path : String) (cluster_size : Int)
  | TransformWikipediaDataTask (input_base_path output_base_path : String) (cluster_size : Int)
  | CopyToRedshiftTask (input_base_path output_base_path table_name : String)
  | ShutdownClusters (input_base_path output_base_path table_name : String)
deriving DecidableEq

/-- The `requires` methods of the four task classes: `ShutdownClusters`
requires `CopyToRedshiftTask(input_base_path, output_base_path,
table_name)`; `CopyToRedshiftTask` requires
`TransformWikipediaDataTask(input_base_path, output_base_path)`;
`TransformWikipediaDataTask` requires
`ExtractWikipediaDataTask(input_base_path, output_base_path)`;
`ExtractWikipediaDataTask` requires nothing.  Tasks constructed without an
explicit `cluster_size` get the declared default 5. -/
def WikiTask.requires : WikiTask → List WikiTask
  | .ExtractWikipediaDataTask _ _ _ => []
  | .TransformWikipediaDataTask i o _ => [.ExtractWikipediaDataTask i o 5]
  | .CopyToRedshiftTask i o _ => [.TransformWikipediaDataTask i o 5]
  | .ShutdownClusters i o tn => [.CopyToRedshiftTask i o tn]

/-- Modelled from the spec: the completion marker of `CopyToRedshiftTask`.
Its `output` comes from the external `redshift.S3CopyToTable` base class
(not in the repository's source); the spec treats it as one opaque marker
derived from the task's output path and target table. -/
def copyToRedshiftMarker (output_base_path table_name : String) : String :=
  create_full_path output_base_path ("redshift-" ++ table_name)

/-- The output markers of the four tasks.  `ExtractWikipediaDataTask` and
`TransformWikipediaDataTask` declare `script_output` at
`output_base_path/extract` and `output_base_path/transform`;
`ShutdownClusters.output` is `output_base_path/ShutdownClusters` (the class
name); `CopyToRedshiftTask`'s marker is inherited from the external base
class and spec-modelled by `copyToRedshiftMarker`. -/
def WikiTask.outputs : WikiTask → List String
  | .ExtractWikipediaDataTask _ o _ => [create_full_path o "extract"]
  | .TransformWikipediaDataTask _ o _ => [create_full_path o "transform"]
  | .CopyToRedshiftTask _ o tn => [copyToRedshiftMarker o tn]
  | .ShutdownClusters _ o _ => [create_full_path o "ShutdownClusters"]

/-- The `input_base_path` parameter of a task. -/
def WikiTask.inputBasePath : WikiTask → String
  | .ExtractWikipediaDataTask i _ _ => i
  | .TransformWikipediaDataTask i _ _ => i
  | .CopyToRedshiftTask i _ _ => i
  | .ShutdownClusters i _ _ => i

/-- The `output_base_path` parameter of a task. -/
def WikiTask.outputBasePath : WikiTask → String
  | .ExtractWikipediaDataTask _ o _ => o
  | .TransformWikipediaDataTask _ o _ => o
  | .CopyToRedshiftTask _ o _ => o
  | .ShutdownClusters _ o _ => o

/-- The `table_name` parameter of a task, for the two classes declaring it. -/
def WikiTask.tableName : WikiTask → Option String
  | .ExtractWikipediaDataTask _ _ _ => none
  | .TransformWikipediaDataTask _ _ _ => none
  | .CopyToRedshiftTask _ _ tn => some tn
  | .ShutdownClusters _ _ tn => some tn

/-- The dependency closure of a task along `requires`, with a recursion
budget (the chain has depth 4). -/
def depClosureAux : Nat → WikiTask → List WikiTask
  | 0, t => [t]
  | n + 1, t => t :: (WikiTask.requires t).flatMap (depClosureAux n)

/-- The dependency closure of a task along `requires`. -/
def depClosure (t : WikiTask) : List WikiTask :=
  depClosureAux 4 t

/-- A rank function witnessing that the wikipedia task chain is acyclic:
every dependency has strictly smaller rank. -/
def wikiRank : WikiTask → Nat
  | .ExtractWikipediaDataTask _ _ _ => 0
  | .TransformWikipediaDataTask _ _ _ => 1
  | .CopyToRedshiftTask _ _ _ => 2
  | .ShutdownClusters _ _ _ => 3

/-- `default_parallel` of `WikipediaETLPigscriptTask` (source lines 71-80),
with the external constant `mortartask.NUM_REDUCE_SLOTS_PER_MACHINE` passed
explicitly as `NUM_REDUCE_SLOTS_PER_MACHINE`. -/
def default_parallel (NUM_REDUCE_SLOTS_PER_MACHINE cluster_size : Int) : Int :=
  if cluster_size - 1 > 0 then (cluster_size - 1) * NUM_REDUCE_SLOTS_PER_MACHINE
  else 1

/-- `number_of_files` of `WikipediaETLPigscriptTask` (source lines 82-90),
with the external constant `mortartask.NUM_REDUCE_SLOTS_PER_MACHINE` passed
explicitly as `NUM_REDUCE_SLOTS_PER_MACHINE`. -/
def number_of_files (NUM_REDUCE_SLOTS_PER_MACHINE cluster_size : Int) : Int :=
  if cluster_size - 1 > 0 then 2 * (cluster_size - 1) * NUM_REDUCE_SLOTS_PER_MACHINE
  else 2

-- Task identity.

/-- Modelled from the spec: the value of one luigi parameter, either a
string parameter or an integer parameter. -/
inductive ParamValue where
  | str (s : String)
  | int (n : Int)
deriving DecidableEq, Hashable

/-- Modelled from the spec: a task identity is the task kind together with
its parameter mapping, as an immutable value struct; the engine's
parameter-derived task equality is not part of the repository's source. -/
structure TaskId where
  kind : String
  params : List (String × ParamValue)
deriving DecidableEq

/-- Structural boolean equality of task identities: identities are equal
exactly when kind and parameter mapping are equal. -/
def taskIdBeq (a b : TaskId) : Bool :=
  decide (a.kind = b.kind) && decide (a.params = b.params)

/-- Structural hash of a task identity, derived from kind and parameters
only. -/
def taskIdHash (a : TaskId) : UInt64 :=
  hash (a.kind, a.params)

/-- The identities of the four wikipedia task classes: kind is the class
name, parameters are the declared luigi parameters. -/
def WikiTask.taskId : WikiTask → TaskId
  | .ExtractWikipediaDataTask i o c =>
    ⟨"ExtractWikipediaDataTask",
      [("input_base_path", .str i), ("output_base_path", .str o), ("cluster_size", .int c)]⟩
  | .TransformWikipediaDataTask i o c =>
    ⟨"TransformWikipediaDataTask",
      [("input_base_path", .str i), ("output_base_path", .str o), ("cluster_size", .int c)]⟩
  | .CopyToRedshiftTask i o tn =>
    ⟨"CopyToRedshiftTask",
      [("input_base_path", .str i), ("output_base_path", .str o), ("table_name", .str tn)]⟩
  | .ShutdownClusters i o tn =>
    ⟨"ShutdownClusters",
      [("input_base_path", .str i), ("output_base_path", .str o), ("table_name", .str tn)]⟩

-- Concrete fixtures for the scenario claims.

/-- The goal task of the wikipedia pipeline at concrete parameters: luigi is
run with `main_task_cls=ShutdownClusters`. -/
def wikiGoal : WikiTask :=
  WikiTask.ShutdownClusters "in" "out" "pageviews"

/-- A Completion Store in which no marker exists. -/
def emptyStore {μ : Type} : μ → Bool := fun _ => false

/-- The Completion Store after `ExtractWikipediaDataTask`,
`TransformWikipediaDataTask` and `CopyToRedshiftTask` succeeded at the
concrete parameters of `wikiGoal`, but `ShutdownClusters` failed: exactly
their markers exist. -/
def wikiStoreThreeDone : String → Bool := fun m =>
  m == create_full_path "out" "extract" || m == create_full_path "out" "transform" ||
  m == copyToRedshiftMarker "out" "pageviews"

/-- The Completion Store in which the goal task's marker exists. -/
def wikiStoreGoalDone : String → Bool := fun m =>
  m == create_full_path "out" "ShutdownClusters"

/-- The spec's abstract three-task chain: goal `2` (G) depends on `[1]`
(B), `1` depends on `[0]` (A), `0` has no dependencies. -/
def chainDeps : Nat → List Nat
  | 1 => [0]
  | 2 => [1]
  | _ => []

/-- Each abstract chain task has a single marker, its own identifier. -/
def chainMarkers : Nat → List Nat := fun n => [n]

/-- A two-task dependency cycle: task `0` depends on `[1]` and task `1`
depends on `[0]`. -/
def cyc2Deps : Nat → List Nat
  | 0 => [1]
  | 1 => [0]
  | _ => []

/-- Each cycle task has a single marker, its own identifier. -/
def cyc2Markers : Nat → List Nat := fun n => [n]

-- Theorems.

/-- Claim C6: a task's completion check holds exactly when every one of its
markers exists in the Completion Store; a task with any missing marker is
not complete. -/
theorem completion_check_iff_all_markers {ι μ : Type} (markers : ι → List μ)
    (store : μ → Bool) (t : ι) :
    (Pipeline.complete markers store t = true ↔ ∀ m ∈ markers t, store m = true) ∧
    (Pipeline.complete markers store t = false ↔ ∃ m ∈ markers t, store m = false) := by
  constructor
  · simp [Pipeline.complete, List.all_eq_true]
  · simp [Pipeline.complete, List.all_eq_false]

theorem completion_check_iff_all_markers_witness :
    Pipeline.complete (fun _ : Unit => [0, 1]) (fun m => m == 0) () = false ∧
    Pipeline.complete (fun _ : Unit => [0, 1]) (fun _ => true) () = true := by
  refine ⟨(completion_check_iff_all_markers _ _ ()).2.mpr ⟨1, by decide, by decide⟩, ?_⟩
  exact (completion_check_iff_all_markers _ _ ()).1.mpr (by decide)

/-- Claim C9: for every integer `cluster_size`, `number_of_files` equals
`2 * default_parallel`; when `cluster_size - 1 > 0` they are
`(cluster_size - 1) * NUM_REDUCE_SLOTS_PER_MACHINE` and twice that,
otherwise they are 1 and 2; and both are positive for every
`cluster_size` whenever the external machine constant is positive. -/
theorem number_of_files_eq_two_mul_default_parallel (N c : Int) :
    number_of_files N c = 2 * default_parallel N c ∧
    (c - 1 > 0 → default_parallel N c = (c - 1) * N ∧
      number_of_files N c = 2 * ((c - 1) * N)) ∧
    (¬ c - 1 > 0 → default_parallel N c = 1 ∧ number_of_files N c = 2) ∧
    (0 < N → 0 < default_parallel N c ∧ 0 < number_of_files N c) := by
  unfold number_of_files default_parallel
  by_cases h : c - 1 > 0
  · simp only [if_pos h]
    refine ⟨by ring, fun _ => ⟨by trivial, by ring⟩, fun h' => absurd h h', fun hN => ?_⟩
    have h1 : 0 < (c - 1) * N := mul_pos h hN
    exact ⟨h1, by nlinarith⟩
  · simp only [if_neg h]
    exact ⟨by ring, fun h' => absurd h' h, fun _ => ⟨by trivial, by trivial⟩, fun _ => by norm_num⟩

theorem number_of_files_eq_two_mul_default_parallel_witness :
    (0 < default_parallel 2 3 ∧ 0 < number_of_files 2 3) ∧
    (default_parallel 2 0 = 1 ∧ number_of_files 2 0 = 2) :=
  ⟨(number_of_files_eq_two_mul_default_parallel 2 3).2.2.2 (by decide),
   (number_of_files_eq_two_mul_default_parallel 2 0).2.2.1 (by decide)⟩

/-- Claim C8: task identity is structural — boolean identity equality holds
exactly for equal kind and parameter mapping, equal parameters yield equal
identity and equal hash, and on the four wikipedia task classes the
parameter-derived identity determines the task. -/
theorem task_identity_structural :
    (∀ a b : TaskId, taskIdBeq a b = true ↔ a = b) ∧
    (∀ (k k' : String) (p p' : List (String × ParamValue)), k = k' → p = p' →
      TaskId.mk k p = TaskId.mk k' p' ∧
      taskIdHash (TaskId.mk k p) = taskIdHash (TaskId.mk k' p')) ∧
    (∀ x y : WikiTask, x.taskId = y.taskId ↔ x = y) := by
  refine ⟨?_, ?_, ?_⟩
  · intro a b
    cases a; cases b
    simp [taskIdBeq, TaskId.mk.injEq]
  · intro k k' p p' hk hp
    subst hk; subst hp
    exact ⟨rfl, rfl⟩
  · intro x y
    constructor
    · intro h
      cases x <;> cases y <;> simp_all [WikiTask.taskId, TaskId.mk.injEq]
    · intro h; rw [h]

theorem task_identity_structural_witness :
    TaskId.mk "CopyToRedshiftTask" [("table_name", ParamValue.str "pageviews")] =
      TaskId.mk "CopyToRedshiftTask" [("table_name", ParamValue.str "pageviews")] ∧
    taskIdHash (TaskId.mk "CopyToRedshiftTask" [("table_name", ParamValue.str "pageviews")]) =
      taskIdHash (TaskId.mk "CopyToRedshiftTask" [("table_name", ParamValue.str "pageviews")]) :=
  task_identity_structural.2.1 _ _ _ _ rfl rfl

/-- Claim C5: for every task graph, if all of the goal task's markers exist
in the Completion Store then resolution yields the empty execution
sequence, independently of the dependency function — the resolver does not
descend into the goal's dependencies. -/
theorem resolve_complete_goal_noop {ι μ : Type} [DecidableEq ι] (markers : ι → List μ)
    (store : μ → Bool) (goal : ι) (fuel : Nat)
    (h : Pipeline.complete markers store goal = true) (deps : ι → List ι) :
    Pipeline.resolve deps (Pipeline.complete markers store) fuel goal = .ok [] := by
  cases fuel <;> simp [Pipeline.resolve, Pipeline.dfs, h]

theorem resolve_complete_goal_noop_witness :
    Pipeline.resolve WikiTask.requires (Pipeline.complete WikiTask.outputs wikiStoreGoalDone)
      9 wikiGoal = .ok [] :=
  resolve_complete_goal_noop WikiTask.outputs wikiStoreGoalDone wikiGoal 9 (by decide)
    WikiTask.requires

/-- Claim C2, counterexample: the chain instantiated in the code is four
tasks, not three.  Resolving from `ShutdownClusters` with no markers yields
a four-element sequence, so it is not the three-element sequence
`[A, B, G]` for any assignment of A, B, G to code tasks. -/
theorem code_chain_resolves_to_four_tasks :
    Pipeline.resolve WikiTask.requires (Pipeline.complete WikiTask.outputs emptyStore)
        9 wikiGoal =
      .ok [WikiTask.ExtractWikipediaDataTask "in" "out" 5,
           WikiTask.TransformWikipediaDataTask "in" "out" 5,
           WikiTask.CopyToRedshiftTask "in" "out" "pageviews",
           WikiTask.ShutdownClusters "in" "out" "pageviews"] ∧
    [WikiTask.ExtractWikipediaDataTask "in" "out" 5,
     WikiTask.TransformWikipediaDataTask "in" "out" 5,
     WikiTask.CopyToRedshiftTask "in" "out" "pageviews",
     WikiTask.ShutdownClusters "in" "out" "pageviews"].length ≠ 3 := by
  exact ⟨rfl, by decide⟩

/-- Claim C2, amended: for the spec's abstract three-task chain (goal G
depends on [B], B on [A]), no markers give the sequence [A, B, G], and
after A and B succeed but G fails a fresh resolution yields [G]; for the
four-task chain instantiated in the code, no markers give the sequence
[Extract, Transform, Copy, Shutdown], and after the first three succeed but
ShutdownClusters fails a fresh resolution yields [ShutdownClusters]. -/
theorem chain_scenario_resolution :
    Pipeline.resolve chainDeps (Pipeline.complete chainMarkers emptyStore) 9 2 =
      .ok [0, 1, 2] ∧
    Pipeline.resolve chainDeps
        (Pipeline.complete chainMarkers (fun m => m == 0 || m == 1)) 9 2 =
      .ok [2] ∧
    Pipeline.resolve WikiTask.requires (Pipeline.complete WikiTask.outputs emptyStore)
        9 wikiGoal =
      .ok [WikiTask.ExtractWikipediaDataTask "in" "out" 5,
           WikiTask.TransformWikipediaDataTask "in" "out" 5,
           WikiTask.CopyToRedshiftTask "in" "out" "pageviews",
           WikiTask.ShutdownClusters "in" "out" "pageviews"] ∧
    Pipeline.resolve WikiTask.requires
        (Pipeline.complete WikiTask.outputs wikiStoreThreeDone) 9 wikiGoal =
      .ok [wikiGoal] :=
  ⟨rfl, rfl, rfl, rfl⟩

/-- Claim C10: every task in the dependency closure of the goal
`ShutdownClusters` carries the goal's `input_base_path` and
`output_base_path`, and the `CopyToRedshiftTask` in the closure carries the
goal's `table_name`. -/
theorem dependency_closure_shares_paths (i o tn : String) :
    (∀ x ∈ depClosure (WikiTask.ShutdownClusters i o tn),
      x.inputBasePath = i ∧ x.outputBasePath = o ∧
        (∀ s, x.tableName = some s → s = tn)) ∧
    WikiTask.CopyToRedshiftTask i o tn ∈ depClosure (WikiTask.ShutdownClusters i o tn) := by
  constructor
  · intro x hx
    simp only [depClosure, depClosureAux, WikiTask.requires, List.flatMap_cons,
      List.flatMap_nil, List.append_nil, List.mem_cons, List.not_mem_nil, or_false] at hx
    rcases hx with rfl | rfl | rfl | rfl <;>
      simp [WikiTask.inputBasePath, WikiTask.outputBasePath, WikiTask.tableName]
  · simp [depClosure, depClosureAux, WikiTask.requires]

theorem dependency_closure_shares_paths_witness :
    (WikiTask.CopyToRedshiftTask "a" "b" "c").inputBasePath = "a" ∧
    (WikiTask.CopyToRedshiftTask "a" "b" "c").outputBasePath = "b" ∧
    (∀ s, (WikiTask.CopyToRedshiftTask "a" "b" "c").tableName = some s → s = "c") :=
  (dependency_closure_shares_paths "a" "b" "c").1
    (WikiTask.CopyToRedshiftTask "a" "b" "c") (by decide)

-- Helper lemmas for the effectful completion check.

theorem foldCheck_ok {μ : Type} (check : μ → Except Pipeline.CompletionCheckError Bool)
    (g : μ → Bool) :
    ∀ (l : List μ) (b : Bool), (∀ m ∈ l, check m = .ok (g m)) →
      Pipeline.completeEAux check l b = .ok (b && l.all g) := by
  intro l
  induction l with
  | nil => intro b _; simp [Pipeline.completeEAux]
  | cons m l ih =>
    intro b h
    have hm : check m = .ok (g m) := h m (List.mem_cons_self m l)
    have hrest := ih (b && g m) (fun x hx => h x (List.mem_cons_of_mem m hx))
    rw [Pipeline.completeEAux, hm]
    show Pipeline.completeEAux check l (b && g m) = Except.ok (b && (m :: l).all g)
    rw [hrest, List.all_cons, Bool.and_assoc]

theorem foldCheck_error {μ : Type} (check : μ → Except Pipeline.CompletionCheckError Bool) :
    ∀ (l : List μ) (b : Bool), (∃ m ∈ l, ∃ e, check m = .error e) →
      ∃ e, Pipeline.completeEAux check l b = .error e := by
  intro l
  induction l with
  | nil => intro b h; simp at h
  | cons m l ih =>
    intro b h
    cases hcm : check m with
    | error e =>
      exact ⟨e, by rw [Pipeline.completeEAux, hcm]⟩
    | ok bm =>
      obtain ⟨m0, hm0, e, he⟩ := h
      rcases List.mem_cons.mp hm0 with rfl | hm0l
      · rw [hcm] at he; exact absurd he (by simp)
      · obtain ⟨e', he'⟩ := ih (b && bm) ⟨m0, hm0l, e, he⟩
        refine ⟨e', ?_⟩
        rw [Pipeline.completeEAux, hcm]
        show Pipeline.completeEAux check l (b && bm) = Except.error e'
        exact he'

/-- Claim C7: the effectful completion check returns a distinct
`CompletionCheckError` outcome when the store's existence check encounters
a transient backend error on any marker — never a boolean; while absent
markers in an error-free check give a normal boolean result (`false` as
soon as one marker is absent), not an error. -/
theorem completion_check_error_propagates {ι μ : Type} (markers : ι → List μ)
    (check : μ → Except Pipeline.CompletionCheckError Bool) (t : ι) :
    (∀ g : μ → Bool, (∀ m ∈ markers t, check m = .ok (g m)) →
      Pipeline.completeE markers check t = .ok ((markers t).all g)) ∧
    ((∃ m ∈ markers t, ∃ e, check m = .error e) →
      ∃ e, Pipeline.completeE markers check t = .error e) := by
  unfold Pipeline.completeE
  constructor
  · intro g hg
    have h := foldCheck_ok check g (markers t) true hg
    rw [Bool.true_and] at h
    exact h
  · intro h
    exact foldCheck_error check (markers t) true h

theorem completion_check_error_propagates_witness :
    Pipeline.completeE (fun _ : Unit => [0, 1]) (fun m => .ok (m == 0)) () = .ok false ∧
    (∃ e, Pipeline.completeE (fun _ : Unit => [0, 1])
      (fun m => if m == 1 then .error (Pipeline.CompletionCheckError.transient "network")
                else .ok true) () = .error e) := by
  constructor
  · have h := (completion_check_error_propagates (fun _ : Unit => [0, 1])
      (fun m => .ok (m == 0)) ()).1 (fun m => m == 0) (fun m _ => rfl)
    have hall : ([0, 1].all (fun m : Nat => m == 0)) = false := by decide
    rw [hall] at h
    exact h
  · exact (completion_check_error_propagates (fun _ : Unit => [0, 1]) _ ()).2
      ⟨1, by decide, Pipeline.CompletionCheckError.transient "network", by decide⟩

/-- Claim C4: if, while executing a resolved sequence, every task of `pre`
succeeds and then task `f` fails, then exactly `pre ++ [f]` have their
`run()` invoked — no task after the failure is ever invoked — the failing
task's identity is surfaced, no marker present in the store is ever
deleted, and every task of `pre` has all its markers written, so a
subsequent resolution pass sees the tasks before the failure as
complete. -/
theorem executor_failure_halts {ι μ : Type} [DecidableEq μ] (run : ι → Bool)
    (markers : ι → List μ) :
    ∀ (pre suf : List ι) (f : ι) (store : μ → Bool),
      (pre ++ f :: suf).Nodup →
      (∀ x ∈ pre, run x = true) → run f = false →
      (Pipeline.execute run markers (pre ++ f :: suf) store).1 = pre ++ [f] ∧
      (Pipeline.execute run markers (pre ++ f :: suf) store).2.2 = some f ∧
      (∀ x ∈ suf, x ∉ pre ++ [f]) ∧
      (∀ m, store m = true →
        (Pipeline.execute run markers (pre ++ f :: suf) store).2.1 m = true) ∧
      (∀ x ∈ pre, Pipeline.complete markers
        (Pipeline.execute run markers (pre ++ f :: suf) store).2.1 x = true) := by
  intro pre
  induction pre with
  | nil =>
    intro suf f store hnd _ hf
    have hfsuf : f ∉ suf := by
      rw [List.nil_append, List.nodup_cons] at hnd
      exact hnd.1
    have hex : Pipeline.execute run markers ([] ++ f :: suf) store = ([f], store, some f) := by
      simp [Pipeline.execute, hf]
    rw [hex]
    refine ⟨rfl, rfl, ?_, fun m hm => hm, by simp⟩
    intro x hx
    simp only [List.nil_append, List.mem_singleton]
    intro hxf
    exact hfsuf (hxf ▸ hx)
  | cons t pre ih =>
    intro suf f store hnd hpre hf
    have hrt : run t = true := hpre t (List.mem_cons_self t pre)
    have hnd' : (pre ++ f :: suf).Nodup := (List.nodup_cons.mp hnd).2
    have htnot : t ∉ pre ++ f :: suf := (List.nodup_cons.mp hnd).1
    obtain ⟨ih1, ih2, ih3, ih4, ih5⟩ := ih suf f
      (fun m => store m || decide (m ∈ markers t)) hnd'
      (fun x hx => hpre x (List.mem_cons_of_mem t hx)) hf
    have hexec : Pipeline.execute run markers ((t :: pre) ++ f :: suf) store =
        (t :: (Pipeline.execute run markers (pre ++ f :: suf)
          (fun m => store m || decide (m ∈ markers t))).1,
         (Pipeline.execute run markers (pre ++ f :: suf)
          (fun m => store m || decide (m ∈ markers t))).2) := by
      simp only [List.cons_append, Pipeline.execute, hrt, if_pos, List.append_eq]
    rw [hexec]
    refine ⟨by rw [ih1]; rfl, ih2, ?_, ?_, ?_⟩
    · intro x hx
      have hx1 : x ∉ pre ++ [f] := ih3 x hx
      have hxt : x ≠ t := by
        intro hxe
        exact htnot (hxe ▸ List.mem_append_right pre (List.mem_cons_of_mem f hx))
      simp only [List.cons_append, List.mem_cons]
      rintro (rfl | hmem)
      · exact hxt rfl
      · exact hx1 hmem
    · intro m hm
      exact ih4 m (by rw [hm]; rfl)
    · intro x hx
      rcases List.mem_cons.mp hx with rfl | hxpre
      · rw [Pipeline.complete, List.all_eq_true]
        intro m hmm
        exact ih4 m (by rw [Bool.or_eq_true]; right; exact decide_eq_true hmm)
      · exact ih5 x hxpre

theorem executor_failure_halts_witness :
    (Pipeline.execute (fun n : Nat => n != 2) (fun n : Nat => [n])
        ([0, 1] ++ 2 :: [3]) (fun _ => false)).1 = [0, 1] ++ [2] ∧
    (Pipeline.execute (fun n : Nat => n != 2) (fun n : Nat => [n])
        ([0, 1] ++ 2 :: [3]) (fun _ => false)).2.2 = some 2 ∧
    (∀ x ∈ [3], x ∉ [0, 1] ++ [2]) ∧
    (∀ m, (fun _ : Nat => false) m = true →
      (Pipeline.execute (fun n : Nat => n != 2) (fun n : Nat => [n])
        ([0, 1] ++ 2 :: [3]) (fun _ => false)).2.1 m = true) ∧
    (∀ x ∈ [0, 1], Pipeline.complete (fun n : Nat => [n])
      (Pipeline.execute (fun n : Nat => n != 2) (fun n : Nat => [n])
        ([0, 1] ++ 2 :: [3]) (fun _ => false)).2.1 x = true) :=
  executor_failure_halts (fun n => n != 2) (fun n => [n]) [0, 1] [3] 2 (fun _ => false)
    (by decide) (by decide) (by decide)

-- Soundness of the resolver's depth-first walk: whenever it returns a
-- schedule, the schedule extends the accumulator, keeps the resolver
-- invariant, adds only tasks outside the visiting set, and contains the
-- visited task if that task is incomplete.

theorem dfs_sound {ι : Type} [DecidableEq ι] (deps : ι → List ι) (cmpl : ι → Bool) :
    ∀ (fuel : Nat) (vis acc : List ι) (t : ι) (acc' : List ι),
      Pipeline.ResolverInv deps cmpl acc → (∀ v ∈ vis, v ∉ acc) →
      Pipeline.dfs deps cmpl fuel vis acc t = .ok acc' →
      acc <+: acc' ∧ Pipeline.ResolverInv deps cmpl acc' ∧
        (∀ x ∈ acc', x ∉ acc → x ∉ vis) ∧
        (cmpl t = false → t ∈ acc') := by
  intro fuel
  induction fuel with
  | zero =>
    intro vis acc t acc' hinv hdisj hok
    rw [Pipeline.dfs] at hok
    split_ifs at hok with h1 h2 h3
    · injection hok with h
      subst h
      exact ⟨List.prefix_rfl, hinv, fun x hx hnx => absurd hx hnx,
        fun hf => absurd h1 (by rw [hf]; simp)⟩
    · injection hok with h
      subst h
      exact ⟨List.prefix_rfl, hinv, fun x hx hnx => absurd hx hnx, fun _ => h3⟩
  | succ fuel ih =>
    intro vis acc t acc' hinv hdisj hok
    rw [Pipeline.dfs] at hok
    split_ifs at hok with h1 h2 h3
    · injection hok with h
      subst h
      exact ⟨List.prefix_rfl, hinv, fun x hx hnx => absurd hx hnx,
        fun hf => absurd h1 (by rw [hf]; simp)⟩
    · injection hok with h
      subst h
      exact ⟨List.prefix_rfl, hinv, fun x hx hnx => absurd hx hnx, fun _ => h3⟩
    · -- main branch: the dependencies are visited first, then t is appended
      have h1f : cmpl t = false := by revert h1; cases cmpl t <;> simp
      have hlist : ∀ (vis0 ds : List ι), ∀ (acc1 acc2 : List ι),
          Pipeline.ResolverInv deps cmpl acc1 → (∀ v ∈ vis0, v ∉ acc1) →
          Pipeline.dfsList (Pipeline.dfs deps cmpl fuel) vis0 acc1 ds = .ok acc2 →
          acc1 <+: acc2 ∧ Pipeline.ResolverInv deps cmpl acc2 ∧
            (∀ x ∈ acc2, x ∉ acc1 → x ∉ vis0) ∧
            (∀ d ∈ ds, cmpl d = false → d ∈ acc2 ∧ d ∉ vis0) := by
        intro vis0 ds
        induction ds with
        | nil =>
          intro acc1 acc2 hinv1 hdisj1 hok1
          rw [Pipeline.dfsList] at hok1
          injection hok1 with h
          subst h
          exact ⟨List.prefix_rfl, hinv1, fun x hx hnx => absurd hx hnx, by simp⟩
        | cons d ds ihds =>
          intro acc1 acc2 hinv1 hdisj1 hok1
          rw [Pipeline.dfsList] at hok1
          cases hd1 : Pipeline.dfs deps cmpl fuel vis0 acc1 d with
          | error e => rw [hd1] at hok1; exact absurd hok1 (by simp)
          | ok a1 =>
            rw [hd1] at hok1
            have hok1' : Pipeline.dfsList (Pipeline.dfs deps cmpl fuel) vis0 a1 ds = .ok acc2 :=
              hok1
            obtain ⟨hp1, hinv1', hnew1, hmem1⟩ := ih vis0 acc1 d a1 hinv1 hdisj1 hd1
            have hdisj1' : ∀ v ∈ vis0, v ∉ a1 := by
              intro v hv hva
              by_cases hvacc : v ∈ acc1
              · exact hdisj1 v hv hvacc
              · exact hnew1 v hva hvacc hv
            obtain ⟨hp2, hinv2, hnew2, hds2⟩ := ihds a1 acc2 hinv1' hdisj1' hok1'
            refine ⟨hp1.trans hp2, hinv2, ?_, ?_⟩
            · intro x hx hnx
              by_cases hxa1 : x ∈ a1
              · exact hnew1 x hxa1 hnx
              · exact hnew2 x hx hxa1
            · intro d' hd' hdf'
              rcases List.mem_cons.mp hd' with rfl | hd'ds
              · refine ⟨hp2.subset (hmem1 hdf'), ?_⟩
                by_cases hdacc : d' ∈ acc1
                · intro hdv; exact hdisj1 d' hdv hdacc
                · exact hnew1 d' (hmem1 hdf') hdacc
              · exact hds2 d' hd'ds hdf'
      cases hd : Pipeline.dfsList (Pipeline.dfs deps cmpl fuel) (t :: vis) acc (deps t) with
      | error e => rw [hd] at hok; exact absurd hok (by simp)
      | ok a =>
        rw [hd] at hok
        injection hok with h
        subst h
        have hdisj' : ∀ v ∈ t :: vis, v ∉ acc := by
          intro v hv
          rcases List.mem_cons.mp hv with rfl | hvv
          · exact h3
          · exact hdisj v hvv
        obtain ⟨hp, hinva, hnew, hdep⟩ := hlist (t :: vis) (deps t) acc a hinv hdisj' hd
        have htna : t ∉ a := by
          intro hta
          by_cases htacc : t ∈ acc
          · exact h3 htacc
          · exact (hnew t hta htacc) (List.mem_cons_self t vis)
        refine ⟨hp.trans (List.prefix_append a [t]), ?_, ?_, ?_⟩
        · refine ⟨?_, ?_, ?_, ?_, ?_⟩
          · rw [List.nodup_append]
            exact ⟨hinva.nodup, List.nodup_singleton t,
              fun x hx1 hx2 => absurd ((List.mem_singleton.mp hx2) ▸ hx1) htna⟩
          · intro x hx
            rcases List.mem_append.mp hx with hxa | hxt
            · exact hinva.incomplete x hxa
            · rw [List.mem_singleton.mp hxt]; exact h1f
          · intro x hx d hdx hdf
            rcases List.mem_append.mp hx with hxa | hxt
            · exact List.mem_append_left _ (hinva.closed x hxa d hdx hdf)
            · rw [List.mem_singleton.mp hxt] at hdx
              exact List.mem_append_left _ (hdep d hdx hdf).1
          · rw [List.pairwise_append]
            refine ⟨hinva.ordered, List.pairwise_singleton _ _, ?_⟩
            intro x hxa y hyt
            rw [List.mem_singleton.mp hyt]
            intro htdx
            exact htna (hinva.closed x hxa t htdx h1f)
          · intro x hx
            rcases List.mem_append.mp hx with hxa | hxt
            · exact hinva.irrefl x hxa
            · rw [List.mem_singleton.mp hxt]
              intro htt
              exact (hdep t htt h1f).2 (List.mem_cons_self t vis)
        · intro x hx hnx
          rcases List.mem_append.mp hx with hxa | hxt
          · intro hxvis
            exact (hnew x hxa hnx) (List.mem_cons_of_mem t hxvis)
          · rw [List.mem_singleton.mp hxt]
            exact h2
        · intro _
          exact List.mem_append_right a (List.mem_singleton.mpr rfl)

-- Totality of the resolver on graphs admitting a rank function (the
-- standard witness of acyclicity): the walk always returns a schedule.

theorem dfs_total {ι : Type} [DecidableEq ι] (deps : ι → List ι) (cmpl : ι → Bool)
    (rank : ι → Nat) (hrank : ∀ t, ∀ d ∈ deps t, rank d < rank t) :
    ∀ (fuel : Nat) (vis acc : List ι) (t : ι),
      rank t < fuel → (∀ v ∈ vis, rank t < rank v) →
      ∃ acc', Pipeline.dfs deps cmpl fuel vis acc t = .ok acc' := by
  intro fuel
  induction fuel with
  | zero =>
    intro vis acc t hft _
    exact absurd hft (Nat.not_lt_zero _)
  | succ fuel ih =>
    intro vis acc t hft hvis
    rw [Pipeline.dfs]
    by_cases h1 : cmpl t
    · rw [if_pos h1]
      exact ⟨acc, rfl⟩
    · rw [if_neg h1]
      have h2 : t ∉ vis := fun hv => absurd (hvis t hv) (lt_irrefl _)
      rw [if_neg h2]
      by_cases h3 : t ∈ acc
      · rw [if_pos h3]
        exact ⟨acc, rfl⟩
      · rw [if_neg h3]
        have hlist : ∀ (ds acc1 : List ι), (∀ d ∈ ds, d ∈ deps t) →
            ∃ a, Pipeline.dfsList (Pipeline.dfs deps cmpl fuel) (t :: vis) acc1 ds = .ok a := by
          intro ds
          induction ds with
          | nil =>
            intro acc1 _
            exact ⟨acc1, rfl⟩
          | cons d ds ihds =>
            intro acc1 hsub
            have hd : d ∈ deps t := hsub d (List.mem_cons_self d ds)
            have hdr : rank d < rank t := hrank t d hd
            have hdf : rank d < fuel := by omega
            have hdvis : ∀ v ∈ t :: vis, rank d < rank v := by
              intro v hv
              rcases List.mem_cons.mp hv with rfl | hvv
              · exact hdr
              · exact lt_trans hdr (hvis v hvv)
            obtain ⟨a1, ha1⟩ := ih (t :: vis) acc1 d hdf hdvis
            obtain ⟨a2, ha2⟩ := ihds a1 (fun x hx => hsub x (List.mem_cons_of_mem d hx))
            refine ⟨a2, ?_⟩
            rw [Pipeline.dfsList, ha1]
            show Pipeline.dfsList (Pipeline.dfs deps cmpl fuel) (t :: vis) a1 ds = .ok a2
            exact ha2
        obtain ⟨a, ha⟩ := hlist (deps t) acc (fun d hd => hd)
        exact ⟨a ++ [t], by rw [ha]⟩

-- From the pairwise ordering of a schedule to strict index ordering.

theorem pairwise_deps_indexOf {ι : Type} [DecidableEq ι] (deps : ι → List ι)
    {l : List ι} (hpw : l.Pairwise (fun x y => y ∉ deps x)) (hirr : ∀ x ∈ l, x ∉ deps x)
    {t d : ι} (ht : t ∈ l) (hd : d ∈ deps t) (hdl : d ∈ l) :
    l.indexOf d < l.indexOf t := by
  have hdlen : l.indexOf d < l.length := List.indexOf_lt_length.mpr hdl
  have htlen : l.indexOf t < l.length := List.indexOf_lt_length.mpr ht
  rcases lt_trichotomy (l.indexOf d) (l.indexOf t) with h | h | h
  · exact h
  · have hdt : d = t := (List.indexOf_inj hdl ht).mp h
    exact absurd (hdt ▸ hd) (hirr t ht)
  · have hh := (List.pairwise_iff_getElem.mp hpw) (l.indexOf t) (l.indexOf d) htlen hdlen h
    rw [List.getElem_indexOf htlen, List.getElem_indexOf hdlen] at hh
    exact absurd hd hh

/-- Claim C1: for every acyclic task graph (acyclicity witnessed by a rank
function strictly decreasing along dependency edges) and enough recursion
budget, the Graph Resolver produces an ordered sequence in which every task
sits strictly after each of its dependencies that is scheduled at all, and
which contains no duplicates (a task reachable via multiple paths appears
at most once, by identity equality). -/
theorem graph_resolver_topological {ι : Type} [DecidableEq ι] (deps : ι → List ι)
    (cmpl : ι → Bool) (rank : ι → Nat) (goal : ι) (fuel : Nat)
    (hrank : ∀ t, ∀ d ∈ deps t, rank d < rank t) (hfuel : rank goal < fuel) :
    ∃ seq, Pipeline.resolve deps cmpl fuel goal = .ok seq ∧ seq.Nodup ∧
      ∀ t ∈ seq, ∀ d ∈ deps t, d ∈ seq → seq.indexOf d < seq.indexOf t := by
  obtain ⟨seq, hseq⟩ := dfs_total deps cmpl rank hrank fuel [] [] goal hfuel (by simp)
  have hinv0 : Pipeline.ResolverInv deps cmpl [] :=
    ⟨List.nodup_nil, by simp, by simp, List.Pairwise.nil, by simp⟩
  obtain ⟨_, hinv, _, _⟩ := dfs_sound deps cmpl fuel [] [] goal seq hinv0 (by simp) hseq
  exact ⟨seq, hseq, hinv.nodup,
    fun t ht d hd hdl => pairwise_deps_indexOf deps hinv.ordered hinv.irrefl ht hd hdl⟩

theorem graph_resolver_topological_witness :
    ∃ seq, Pipeline.resolve WikiTask.requires (Pipeline.complete WikiTask.outputs emptyStore)
        9 wikiGoal = .ok seq ∧ seq.Nodup ∧
      ∀ t ∈ seq, ∀ d ∈ WikiTask.requires t, d ∈ seq → seq.indexOf d < seq.indexOf t :=
  graph_resolver_topological WikiTask.requires (Pipeline.complete WikiTask.outputs emptyStore)
    wikiRank wikiGoal 9
    (by intro t d hd; cases t <;> simp_all [WikiTask.requires, wikiRank])
    (by decide)

-- Reachability facts about successful resolutions.

theorem reaches_trans {ι : Type} (deps : ι → List ι) (cmpl : ι → Bool) {a b c : ι} :
    Pipeline.Reaches deps cmpl a b → Pipeline.Reaches deps cmpl b c →
    Pipeline.Reaches deps cmpl a c := by
  intro hab hbc
  induction hbc with
  | refl => exact hab
  | step _ h2 h3 ih => exact Pipeline.Reaches.step ih h2 h3

theorem resolve_covers {ι : Type} [DecidableEq ι] (deps : ι → List ι) (cmpl : ι → Bool)
    (fuel : Nat) (goal : ι) (seq : List ι)
    (hok : Pipeline.resolve deps cmpl fuel goal = .ok seq) (hg : cmpl goal = false) :
    ∀ t, Pipeline.Reaches deps cmpl goal t → t ∈ seq := by
  have hinv0 : Pipeline.ResolverInv deps cmpl [] :=
    ⟨List.nodup_nil, by simp, by simp, List.Pairwise.nil, by simp⟩
  obtain ⟨_, hinv, _, hmem⟩ := dfs_sound deps cmpl fuel [] [] goal seq hinv0 (by simp) hok
  intro t hreach
  induction hreach with
  | refl => exact hmem hg
  | @step b c' _ h2 h3 ih => exact hinv.closed b ih c' h2 h3

theorem reaches_indexOf_le {ι : Type} [DecidableEq ι] (deps : ι → List ι) (cmpl : ι → Bool)
    {seq : List ι} (hinv : Pipeline.ResolverInv deps cmpl seq) {d : ι} (hd : d ∈ seq) :
    ∀ x, Pipeline.Reaches deps cmpl d x → x ∈ seq ∧ seq.indexOf x ≤ seq.indexOf d := by
  intro x hx
  induction hx with
  | refl => exact ⟨hd, le_refl _⟩
  | @step b c' _ h2 h3 ih =>
    obtain ⟨hb, hble⟩ := ih
    have hc' : c' ∈ seq := hinv.closed b hb c' h2 h3
    have hlt := pairwise_deps_indexOf deps hinv.ordered hinv.irrefl hb h2 hc'
    exact ⟨hc', by omega⟩

-- With a recursion budget exceeding the number of tasks, the walk never
-- runs out of fuel: the visiting set is duplicate-free, so its length is
-- bounded by the task count.

theorem dfs_no_fuel_error {ι : Type} [DecidableEq ι] (deps : ι → List ι) (cmpl : ι → Bool)
    (univ : List ι) (hclosed : ∀ u ∈ univ, ∀ d ∈ deps u, d ∈ univ) :
    ∀ (fuel : Nat) (vis acc : List ι) (t : ι), vis.Nodup → (∀ v ∈ vis, v ∈ univ) →
      t ∈ univ → univ.length < fuel + vis.length →
      Pipeline.dfs deps cmpl fuel vis acc t ≠ .error Pipeline.ResolveError.outOfFuel := by
  intro fuel
  induction fuel with
  | zero =>
    intro vis acc t hnd hsub _ hlen
    have hv : vis.length ≤ univ.length :=
      (List.subperm_of_subset hnd (fun x hx => hsub x hx)).length_le
    exact absurd hlen (by omega)
  | succ fuel ih =>
    intro vis acc t hnd hsub htu hlen
    rw [Pipeline.dfs]
    split_ifs with h1 h2 h3
    · simp
    · intro hh
      injection hh with h
      exact Pipeline.ResolveError.noConfusion h
    · simp
    · have hndv : (t :: vis).Nodup := List.nodup_cons.mpr ⟨h2, hnd⟩
      have hsubv : ∀ v ∈ t :: vis, v ∈ univ := by
        intro v hv
        rcases List.mem_cons.mp hv with rfl | hvv
        · exact htu
        · exact hsub v hvv
      have hlenv : univ.length < fuel + (t :: vis).length := by
        have : (t :: vis).length = vis.length + 1 := rfl
        omega
      have hlist : ∀ (ds acc1 : List ι), (∀ d ∈ ds, d ∈ univ) →
          Pipeline.dfsList (Pipeline.dfs deps cmpl fuel) (t :: vis) acc1 ds ≠
            .error Pipeline.ResolveError.outOfFuel := by
        intro ds
        induction ds with
        | nil =>
          intro acc1 _
          rw [Pipeline.dfsList]
          simp
        | cons d ds ihds =>
          intro acc1 hdsu
          rw [Pipeline.dfsList]
          cases hd1 : Pipeline.dfs deps cmpl fuel (t :: vis) acc1 d with
          | error e =>
            show Except.error e ≠ Except.error Pipeline.ResolveError.outOfFuel
            intro hh
            injection hh with h
            subst h
            exact (ih (t :: vis) acc1 d hndv hsubv
              (hdsu d (List.mem_cons_self d ds)) hlenv) hd1
          | ok a1 =>
            show Pipeline.dfsList (Pipeline.dfs deps cmpl fuel) (t :: vis) a1 ds ≠
              .error Pipeline.ResolveError.outOfFuel
            exact ihds a1 (fun x hx => hdsu x (List.mem_cons_of_mem d hx))
      cases hlst : Pipeline.dfsList (Pipeline.dfs deps cmpl fuel) (t :: vis) acc (deps t) with
      | ok a =>
        show Except.ok (a ++ [t]) ≠ Except.error Pipeline.ResolveError.outOfFuel
        simp
      | error e =>
        show Except.error e ≠ Except.error Pipeline.ResolveError.outOfFuel
        intro hh
        injection hh with h
        subst h
        exact (hlist (deps t) acc (fun x hx => hclosed t htu x hx)) hlst

/-- Claim C3, counterexample: a task graph that contains the two-task
dependency cycle 0 ↔ 1 but whose goal task 0 is already complete (its
marker exists) resolves successfully to the empty sequence — resolution
does not fail with `CyclicDependencyError`, because the resolver prunes a
complete task without descending into its dependencies. -/
theorem cyclic_graph_pruned_resolves :
    (1 ∈ cyc2Deps 0 ∧ 0 ∈ cyc2Deps 1) ∧
    Pipeline.resolve cyc2Deps (Pipeline.complete cyc2Markers (fun m => m == 0)) 5 0 =
      .ok [] ∧
    (Pipeline.runPipeline cyc2Deps cyc2Markers (fun _ => true) 5 (fun m => m == 0) 0).2.2 =
      none :=
  ⟨by decide, rfl, rfl⟩

/-- Claim C3, amended: for every task graph whose goal reaches, through
incomplete tasks, a dependency cycle of incomplete tasks (for example task
A depending on B and B on A with no markers present), resolution — given a
recursion budget exceeding the task count — fails with
`CyclicDependencyError`, and no task's `run()` is ever invoked: the
pipeline surfaces the resolution error with an empty invocation list. -/
theorem cyclic_graph_resolution_fails {ι μ : Type} [DecidableEq ι] [DecidableEq μ]
    (deps : ι → List ι) (markers : ι → List μ) (store : μ → Bool) (run : ι → Bool)
    (univ : List ι) (goal : ι) (fuel : Nat)
    (hgoal : goal ∈ univ) (hclosed : ∀ u ∈ univ, ∀ d ∈ deps u, d ∈ univ)
    (hfuel : univ.length < fuel)
    (hg : Pipeline.complete markers store goal = false)
    (c d : ι)
    (hreach : Pipeline.Reaches deps (Pipeline.complete markers store) goal c)
    (hd : d ∈ deps c) (hdc : Pipeline.complete markers store d = false)
    (hback : Pipeline.Reaches deps (Pipeline.complete markers store) d c) :
    (∃ u, Pipeline.resolve deps (Pipeline.complete markers store) fuel goal =
      .error (Pipeline.ResolveError.cyclicDependency u)) ∧
    (Pipeline.runPipeline deps markers run fuel store goal).1 = [] ∧
    (∃ u, (Pipeline.runPipeline deps markers run fuel store goal).2.2 =
      some (Pipeline.PipelineError.resolveFailed
        (Pipeline.ResolveError.cyclicDependency u))) := by
  cases hres : Pipeline.resolve deps (Pipeline.complete markers store) fuel goal with
  | ok seq =>
    exfalso
    have hinv0 : Pipeline.ResolverInv deps (Pipeline.complete markers store) [] :=
      ⟨List.nodup_nil, by simp, by simp, List.Pairwise.nil, by simp⟩
    obtain ⟨_, hinv, _, _⟩ := dfs_sound deps (Pipeline.complete markers store) fuel [] []
      goal seq hinv0 (by simp) hres
    have hdseq : d ∈ seq := resolve_covers deps (Pipeline.complete markers store) fuel goal
      seq hres hg d (Pipeline.Reaches.step hreach hd hdc)
    obtain ⟨hcseq, hcle⟩ :=
      reaches_indexOf_le deps (Pipeline.complete markers store) hinv hdseq c hback
    have hlt := pairwise_deps_indexOf deps hinv.ordered hinv.irrefl hcseq hd hdseq
    omega
  | error e =>
    cases e with
    | outOfFuel =>
      exfalso
      exact (dfs_no_fuel_error deps (Pipeline.complete markers store) univ hclosed fuel
        [] [] goal List.nodup_nil (by simp) hgoal (by simpa using hfuel)) hres
    | cyclicDependency u =>
      refine ⟨⟨u, rfl⟩, ?_, ⟨u, ?_⟩⟩
      · rw [Pipeline.runPipeline, hres]
      · rw [Pipeline.runPipeline, hres]

theorem cyclic_graph_resolution_fails_witness :
    (∃ u, Pipeline.resolve cyc2Deps (Pipeline.complete cyc2Markers emptyStore) 3 0 =
      .error (Pipeline.ResolveError.cyclicDependency u)) ∧
    (Pipeline.runPipeline cyc2Deps cyc2Markers (fun _ => true) 3 emptyStore 0).1 = [] ∧
    (∃ u, (Pipeline.runPipeline cyc2Deps cyc2Markers (fun _ => true) 3 emptyStore 0).2.2 =
      some (Pipeline.PipelineError.resolveFailed
        (Pipeline.ResolveError.cyclicDependency u))) :=
  cyclic_graph_resolution_fails cyc2Deps cyc2Markers emptyStore (fun _ => true) [0, 1] 0 3
    (by decide) (by decide) (by decide) (by decide) 0 1 (Pipeline.Reaches.refl 0)
    (by decide) (by decide)
    (Pipeline.Reaches.step (Pipeline.Reaches.refl 1) (by decide) (by decide))
